import Mathlib

/-
Shallow embedding of src/Pubmed/pubmed_fetcher.py (and the pipeline of
src/Pubmed/get_papers_list.py).

Modelling conventions:
  * Python str is List Char; str.lower() is List.map Char.toLower (ASCII
    lowering, which agrees with Python on the ASCII data involved here);
  * Python substring membership (needle in hay) is containsSubstr;
  * the regex EMAIL_PATTERN = [\w.-]+@[\w.-]+\.[a-zA-Z]{2,6} is embedded as a
    deterministic greedy backtracking matcher (matchAt / searchEmail), with the
    class \w read as the ASCII word characters [a-zA-Z0-9_];
  * the two HTTP calls are modelled by an explicit network oracle argument, and
    request emission is recorded so that claims about which calls happen are
    statable; raise_for_status is modelled from the requests library semantics
    (HTTPError exactly for 4xx/5xx status codes);
  * the CSV file written by save_to_csv is modelled as its parsed content
    (header line plus data rows), Option-valued for existence.
-/

namespace Pubmed

abbrev Str := List Char

/-- PHARMA_KEYWORDS from pubmed_fetcher.py, verbatim, in source order. -/
def PHARMA_KEYWORDS : List Str :=
  ["pharma".toList, "biotech".toList, "therapeutics".toList, "biosciences".toList,
   "genomics".toList, "biopharma".toList, "life sciences".toList, "laboratories".toList,
   "inc.".toList, "corp".toList, "llc".toList, "gmbh".toList, "s.a.".toList,
   "drug discovery".toList, "biologics".toList, "biomedicine".toList,
   "diagnostics".toList, "pharmaceutical".toList, "clinical research".toList,
   "medtech".toList, "bioprocessing".toList, "CRISPR".toList]

/-- Bool test that the first list is a prefix of the second. -/
def isPrefixOfB : Str → Str → Bool
  | [], _ => true
  | _ :: _, [] => false
  | a :: as, b :: bs => a == b && isPrefixOfB as bs

/-- Python substring membership: containsSubstr needle hay decides needle in hay. -/
def containsSubstr (needle : Str) : Str → Bool
  | [] => isPrefixOfB needle []
  | c :: rest => isPrefixOfB needle (c :: rest) || containsSubstr needle rest

/-- Python str.lower() on the ASCII strings involved here. -/
def lowerStr (s : Str) : Str := s.map Char.toLower

/-- The string literal "N/A" used as the missing-email marker. -/
def naStr : Str := "N/A".toList

/-- Character class [\w.-] of EMAIL_PATTERN, with \w as ASCII word characters. -/
def localChar (c : Char) : Bool := c.isAlphanum || c == '_' || c == '.' || c == '-'

/-- Character class [a-zA-Z] of EMAIL_PATTERN. -/
def alphaChar (c : Char) : Bool := c.isAlpha

/-- Greedy match of the regex tail \.[a-zA-Z]{2,6} at the head of s: a dot, then
    as many letters as available up to six, requiring at least two. Nothing
    follows in the pattern, so the greedy repetition never backtracks. -/
def matchTail : Str → Option Str
  | [] => none
  | c :: rest =>
      if c = '.' then
        if 2 ≤ ((rest.takeWhile alphaChar).take 6).length then
          some ('.' :: (rest.takeWhile alphaChar).take 6)
        else none
      else none

/-- Greedy backtracking match of [\w.-]+\.[a-zA-Z]{2,6} at the head of s: the
    plus prefers consuming one more class character (the recursive call) before
    letting the tail start, exactly as the Python engine backtracks from the
    longest run. -/
def matchDom : Str → Option Str
  | [] => none
  | c :: cs =>
      if localChar c then
        match matchDom cs with
        | some d => some (c :: d)
        | none =>
            match matchTail cs with
            | some t => some (c :: t)
            | none => none
      else none

/-- Match of the whole EMAIL_PATTERN at the head of s. Because '@' is not in
    [\w.-], the greedy local part can only be the maximal [\w.-] run, which must
    be nonempty and immediately followed by '@'. -/
def matchAt (s : Str) : Option Str :=
  if (s.takeWhile localChar).isEmpty then none
  else
    if (s.dropWhile localChar).head? = some '@' then
      (matchDom (s.dropWhile localChar).tail).map
        (fun d => s.takeWhile localChar ++ '@' :: d)
    else none

/-- re.search of EMAIL_PATTERN: try each start position from the left, return
    the first position's match. -/
def searchEmail : Str → Option Str
  | [] => none
  | c :: cs =>
      match matchAt (c :: cs) with
      | some m => some m
      | none => searchEmail cs

/-- extract_email from pubmed_fetcher.py: the regex search result, or "N/A". -/
def extract_email (text : Str) : Str :=
  match searchEmail text with
  | some m => m
  | none => naStr

/-- An author dict as built by extract_authors_and_affiliations. -/
structure Author where
  name : Str
  affiliation : Str
  email : Str
  deriving DecidableEq, Repr

/-- The per-author XML fields read by extract_authors_and_affiliations: each of
    the LastName, ForeName and Affiliation tags is present with its text or
    absent. -/
structure RawAuthor where
  lastName : Option Str
  foreName : Option Str
  affiliation : Option Str
  deriving DecidableEq, Repr

/-- The per-article XML fields read by fetch_paper_details: PMID, ArticleTitle
    and PubDate tags, and the list of Author elements in document order. -/
structure RawArticle where
  pmid : Option Str
  articleTitle : Option Str
  pubDate : Option Str
  authors : List RawAuthor
  deriving DecidableEq, Repr

/-- Loop body of extract_authors_and_affiliations for one Author element:
    the name needs both LastName and ForeName, else "Unknown Author"; a missing
    Affiliation becomes "No Affiliation"; the email is extracted from the
    affiliation text. -/
def build_author (ra : RawAuthor) : Author :=
  let name :=
    match ra.lastName, ra.foreName with
    | some l, some f => f ++ ' ' :: l
    | _, _ => "Unknown Author".toList
  let affil_text := ra.affiliation.getD "No Affiliation".toList
  { name := name, affiliation := affil_text, email := extract_email affil_text }

/-- extract_authors_and_affiliations from pubmed_fetcher.py. -/
def extract_authors_and_affiliations (art : RawArticle) : List Author × List Str :=
  (art.authors.map build_author,
   art.authors.map (fun ra => (build_author ra).affiliation))

/-- The classifier test inside filter_company_authors:
    any(keyword in affiliation.lower() for keyword in PHARMA_KEYWORDS).
    The keyword itself is not lowered. -/
def isNonAcademic (affil : Str) : Bool :=
  PHARMA_KEYWORDS.any (fun k => containsSubstr k (lowerStr affil))

/-- filter_company_authors from pubmed_fetcher.py: matching authors' names and
    affiliations, in input order, appended pairwise. -/
def filter_company_authors : List Author → List Str × List Str
  | [] => ([], [])
  | a :: rest =>
      let p := filter_company_authors rest
      if isNonAcademic a.affiliation then (a.name :: p.1, a.affiliation :: p.2)
      else p

/-- find_corresponding_email from pubmed_fetcher.py: the first email in author
    order that is not "N/A", else "N/A". -/
def find_corresponding_email : List Author → Str
  | [] => naStr
  | a :: rest => if a.email ≠ naStr then a.email else find_corresponding_email rest

/-- One output row dict appended by fetch_paper_details, field order as in the
    source dict literal. -/
structure Paper where
  pubmedID : Str
  title : Str
  pubDate : Str
  nonAcademicAuthors : Str
  companyAffiliations : Str
  correspondingEmail : Str
  deriving DecidableEq, Repr

/-- "; ".join(xs) -/
def joinSemi (xs : List Str) : Str := List.intercalate "; ".toList xs

/-- Body of the per-article loop in fetch_paper_details: the output row when
    the article has at least one company author, none when it is dropped. -/
def processArticle (art : RawArticle) : Option Paper :=
  let paper_id := art.pmid.getD "Unknown ID".toList
  let title := art.articleTitle.getD "Unknown Title".toList
  let pub_date := art.pubDate.getD "Unknown Date".toList
  let aa := extract_authors_and_affiliations art
  let ca := filter_company_authors aa.1
  if ca.1.isEmpty then none
  else some { pubmedID := paper_id, title := title, pubDate := pub_date,
              nonAcademicAuthors := joinSemi ca.1,
              companyAffiliations := joinSemi ca.2,
              correspondingEmail := find_corresponding_email aa.1 }

/-- The pure core of fetch_paper_details, applied to the parsed article list:
    the per-article loop, keeping rows of articles with company authors. -/
def fetch_paper_details_pure (arts : List RawArticle) : List Paper :=
  arts.filterMap processArticle

/-- The HTTPError raised by requests.Response.raise_for_status, carrying the
    response status. -/
structure HTTPError where
  status : Nat
  deriving DecidableEq, Repr

/-- Modelled from the requests library: raise_for_status raises HTTPError
    exactly for client-error (4xx) and server-error (5xx) status codes, and
    returns normally for every other status. -/
def raise_for_status (status : Nat) : Except HTTPError Unit :=
  if 400 ≤ status ∧ status < 600 then Except.error ⟨status⟩ else Except.ok ()

/-- fetch_paper_ids from pubmed_fetcher.py: one GET to the search endpoint (net
    maps the query to the response status and parsed id list), then
    raise_for_status, then the id list. There is no handler and no retry. -/
def fetch_paper_ids (query : Str) (net : Str → Nat × List Str) :
    Except HTTPError (List Str) :=
  let r := net query
  match raise_for_status r.1 with
  | Except.error e => Except.error e
  | Except.ok _ => Except.ok r.2

/-- fetch_paper_details from pubmed_fetcher.py including its effects: the first
    component records the comma-joined id string of each GET request issued to
    the fetch endpoint; empty input returns [] before any request; otherwise one
    request is issued, raise_for_status runs, and the parsed articles go through
    the per-article loop. -/
def fetch_paper_details_net (ids : List Str) (net : Str → Nat × List RawArticle) :
    List Str × Except HTTPError (List Paper) :=
  if ids.isEmpty then ([], Except.ok [])
  else
    let q := List.intercalate ",".toList ids
    let r := net q
    ([q],
      match raise_for_status r.1 with
      | Except.error e => Except.error e
      | Except.ok _ => Except.ok (fetch_paper_details_pure r.2))

/-- The fetch pipeline of get_papers_list.py main: an HTTPError from either
    fetch propagates (neither caller has a handler), aborting the run. -/
def run_pipeline (query : Str) (netS : Str → Nat × List Str)
    (netF : Str → Nat × List RawArticle) : Except HTTPError (List Paper) :=
  match fetch_paper_ids query netS with
  | Except.error e => Except.error e
  | Except.ok ids => (fetch_paper_details_net ids netF).2

/-- Content of the CSV output file: the header line and the data rows. -/
structure CsvFile where
  header : List Str
  rows : List (List Str)
  deriving DecidableEq, Repr

/-- Column order of the DataFrame built in save_to_csv (insertion order of the
    row dict keys). -/
def csvHeader : List Str :=
  ["PubmedID".toList, "Title".toList, "Publication Date".toList,
   "Non-academic Author(s)".toList, "Company Affiliation(s)".toList,
   "Corresponding Author Email".toList]

/-- The CSV cells of one Paper, in column order. -/
def paperRow (p : Paper) : List Str :=
  [p.pubmedID, p.title, p.pubDate, p.nonAcademicAuthors, p.companyAffiliations,
   p.correspondingEmail]

/-- save_to_csv from pubmed_fetcher.py, acting on the state of the output file
    (none: the file does not exist): empty input returns with the file
    untouched; an existing file gets the rows appended with no header; a
    missing file is created with the header and the rows. -/
def save_to_csv (papers : List Paper) (file : Option CsvFile) : Option CsvFile :=
  if papers.isEmpty then file
  else
    match file with
    | some f => some { header := f.header, rows := f.rows ++ papers.map paperRow }
    | none => some { header := csvHeader, rows := papers.map paperRow }

/-
Specification-side predicates, used to state the claims about the regex and the
classifier. These transcribe the shape of EMAIL_PATTERN and the HTTP success
class; they are compared against the executable embedding above.
-/

/-- The tail shape \.[a-zA-Z]{2,6}: a dot, then two to six letters. -/
def IsTailMatch (t : Str) : Prop :=
  ∃ c, t = '.' :: c ∧ (∀ x ∈ c, alphaChar x = true) ∧ 2 ≤ c.length ∧ c.length ≤ 6

/-- The domain shape [\w.-]+\.[a-zA-Z]{2,6}. -/
def IsDomMatch (d : Str) : Prop :=
  ∃ p c, d = p ++ '.' :: c ∧ p ≠ [] ∧ (∀ x ∈ p, localChar x = true) ∧
    (∀ x ∈ c, alphaChar x = true) ∧ 2 ≤ c.length ∧ c.length ≤ 6

/-- A string of the exact shape described by EMAIL_PATTERN: a nonempty [\w.-]
    run, an '@', a nonempty [\w.-] run, a '.', and two to six letters. -/
def IsEmailMatch (m : Str) : Prop :=
  ∃ a d, m = a ++ '@' :: d ∧ a ≠ [] ∧ (∀ x ∈ a, localChar x = true) ∧ IsDomMatch d

/-- m is a substring of s matching EMAIL_PATTERN, starting at position i. -/
def MatchesAt (s : Str) (i : Nat) (m : Str) : Prop :=
  (∃ t, s.drop i = m ++ t) ∧ IsEmailMatch m

/-- The HTTP success class (2xx), the literal reading of a "success status". -/
def successStatus (s : Nat) : Prop := 200 ≤ s ∧ s < 300

/-- The claim's description of email resolution: the first email in the mapped
    email sequence that differs from "N/A", else "N/A". -/
def firstNonNA (authors : List Author) : Str :=
  ((authors.map Author.email).find? (fun e => e != naStr)).getD naStr

/-
Concrete inputs used by witnesses and counterexamples.
-/

/-- A one-author list whose affiliation matches the keyword "pharma". -/
def wAuthors : List Author :=
  [{ name := "Ann Boe".toList, affiliation := "Pfizer pharma unit".toList,
     email := naStr }]

/-- An author list whose emails are all "N/A". -/
def wAuthorsNA : List Author :=
  [{ name := "Ann Boe".toList, affiliation := "Univ".toList, email := naStr },
   { name := "Cai Dee".toList, affiliation := "College".toList, email := naStr }]

/-- A raw article with missing title, date, author names and one matching
    affiliation carrying an email. -/
def wArticle : RawArticle :=
  { pmid := none, articleTitle := none, pubDate := none,
    authors :=
      [{ lastName := none, foreName := none,
         affiliation := some "Editas Medicine biotech x@editas.com more".toList },
       { lastName := some "Boe".toList, foreName := some "Ann".toList,
         affiliation := none }] }

/-- A raw article with no company-affiliated author. -/
def wArticleAcad : RawArticle :=
  { pmid := some "222".toList, articleTitle := some "T2".toList,
    pubDate := some "2020".toList,
    authors :=
      [{ lastName := some "Eff".toList, foreName := some "Gee".toList,
         affiliation := some "Broad Institute".toList }] }

/-- The two-article batch for the C2 witness. -/
def wArticles : List RawArticle := [wArticle, wArticleAcad]

/-- A network oracle for the fetch endpoint answering 200 with no articles. -/
def wNetOk : Str → Nat × List RawArticle := fun _ => (200, [])

/-- A search oracle answering 304 Not Modified with one id. -/
def wNetSearch304 : Str → Nat × List Str := fun _ => (304, ["123".toList])

/-- A search oracle answering 500 with no ids. -/
def wNetSearch500 : Str → Nat × List Str := fun _ => (500, [])

/-- A concrete paper row for the C6 witness. -/
def wPaper : Paper :=
  { pubmedID := "111".toList, title := "T".toList, pubDate := "2020".toList,
    nonAcademicAuthors := "Ann Boe".toList,
    companyAffiliations := "Pfizer pharma unit".toList,
    correspondingEmail := naStr }

/-- A concrete pre-existing CSV file for the C6 witness. -/
def wCsv : CsvFile := { header := csvHeader, rows := [paperRow wPaper] }

/-- The row produced for wArticle, all placeholder defaults filled in. -/
def wPaperOut : Paper :=
  { pubmedID := "Unknown ID".toList, title := "Unknown Title".toList,
    pubDate := "Unknown Date".toList,
    nonAcademicAuthors := "Unknown Author".toList,
    companyAffiliations := "Editas Medicine biotech x@editas.com more".toList,
    correspondingEmail := "x@editas.com".toList }

/-
Helper lemmas about list scanning and the character classes.
-/

theorem takeWhile_append_all {p : Char → Bool} {a z : Str}
    (h : ∀ x ∈ a, p x = true) : (a ++ z).takeWhile p = a ++ z.takeWhile p := by
  induction a with
  | nil => simp
  | cons x xs ih =>
      simp only [List.cons_append, List.takeWhile_cons, h x (List.mem_cons_self x xs),
        if_true]
      rw [ih (fun y hy => h y (List.mem_cons_of_mem x hy))]

theorem dropWhile_append_all {p : Char → Bool} {a z : Str}
    (h : ∀ x ∈ a, p x = true) : (a ++ z).dropWhile p = z.dropWhile p := by
  induction a with
  | nil => simp
  | cons x xs ih =>
      simp only [List.cons_append, List.dropWhile_cons, h x (List.mem_cons_self x xs),
        if_true]
      exact ih (fun y hy => h y (List.mem_cons_of_mem x hy))

theorem takeWhile_append_stop {p : Char → Bool} {a z : Str} {x : Char}
    (h : ∀ y ∈ a, p y = true) (hx : p x = false) :
    (a ++ x :: z).takeWhile p = a := by
  rw [takeWhile_append_all h, List.takeWhile_cons, hx]
  simp

theorem dropWhile_append_stop {p : Char → Bool} {a z : Str} {x : Char}
    (h : ∀ y ∈ a, p y = true) (hx : p x = false) :
    (a ++ x :: z).dropWhile p = x :: z := by
  rw [dropWhile_append_all h, List.dropWhile_cons, hx]
  simp

theorem isPrefixOfB_sub : ∀ (n hay : Str), isPrefixOfB n hay = true → ∀ c ∈ n, c ∈ hay := by
  intro n
  induction n with
  | nil => intro hay _ c hc; simp at hc
  | cons a as ih =>
      intro hay hp c hc
      cases hay with
      | nil => simp [isPrefixOfB] at hp
      | cons b bs =>
          simp only [isPrefixOfB, Bool.and_eq_true, beq_iff_eq] at hp
          rcases hp with ⟨rfl, hrest⟩
          rcases List.mem_cons.mp hc with rfl | hmem
          · exact List.mem_cons_self _ _
          · exact List.mem_cons_of_mem _ (ih bs hrest c hmem)

theorem containsSubstr_sub (n : Str) : ∀ (hay : Str),
    containsSubstr n hay = true → ∀ c ∈ n, c ∈ hay := by
  intro hay
  induction hay with
  | nil =>
      intro hp c hc
      cases n with
      | nil => simp at hc
      | cons a as => simp [containsSubstr, isPrefixOfB] at hp
  | cons b bs ih =>
      intro hp c hc
      simp only [containsSubstr, Bool.or_eq_true] at hp
      rcases hp with hp | hp
      · exact isPrefixOfB_sub n (b :: bs) hp c hc
      · exact List.mem_cons_of_mem _ (ih hp c hc)

theorem ofNat_shift_ne (n : Nat) (h1 : 65 ≤ n) (h2 : n ≤ 90) :
    Char.ofNat (n + 32) ≠ 'C' := by
  interval_cases n <;> decide

theorem toLower_ne_C (c : Char) : Char.toLower c ≠ 'C' := by
  have hdef : Char.toLower c =
      if c.toNat ≥ 65 ∧ c.toNat ≤ 90 then Char.ofNat (c.toNat + 32) else c := rfl
  rw [hdef]
  by_cases hc : c.toNat ≥ 65 ∧ c.toNat ≤ 90
  · rw [if_pos hc]
    exact ofNat_shift_ne c.toNat hc.1 hc.2
  · rw [if_neg hc]
    intro h
    apply hc
    rw [h]
    exact ⟨by decide, by decide⟩

theorem kwLower : ∀ k ∈ PHARMA_KEYWORDS, k ≠ "CRISPR".toList → lowerStr k = k := by
  decide

theorem crispr_no_match (affil : Str) :
    containsSubstr "CRISPR".toList (lowerStr affil) = false := by
  rcases hb : containsSubstr "CRISPR".toList (lowerStr affil) with _ | _
  · rfl
  · exfalso
    have hC : 'C' ∈ lowerStr affil :=
      containsSubstr_sub _ _ hb 'C' (by decide)
    rcases List.mem_map.mp hC with ⟨c, _, hc⟩
    exact toLower_ne_C c hc

/-
Soundness and completeness of the EMAIL_PATTERN matcher with respect to the
declarative shape predicates.
-/

theorem matchTail_sound {s t : Str} (h : matchTail s = some t) :
    (∃ r, s = t ++ r) ∧ IsTailMatch t := by
  cases s with
  | nil => simp [matchTail] at h
  | cons c rest =>
      simp only [matchTail] at h
      split at h
      case isFalse => cases h
      case isTrue hc =>
        split at h
        case isFalse => cases h
        case isTrue hlen =>
          injection h with h
          subst h
          subst hc
          constructor
          · refine ⟨(rest.takeWhile alphaChar).drop 6 ++ rest.dropWhile alphaChar, ?_⟩
            have : rest = (rest.takeWhile alphaChar).take 6 ++
                ((rest.takeWhile alphaChar).drop 6 ++ rest.dropWhile alphaChar) := by
              rw [← List.append_assoc, List.take_append_drop,
                List.takeWhile_append_dropWhile]
            simpa using this
          · refine ⟨(rest.takeWhile alphaChar).take 6, rfl, ?_, hlen, ?_⟩
            · intro x hx
              exact List.mem_takeWhile_imp (List.mem_of_mem_take hx)
            · rw [List.length_take]
              exact min_le_left _ _

theorem matchTail_none {s t r : Str} (h : matchTail s = none) (he : s = t ++ r)
    (ht : IsTailMatch t) : False := by
  rcases ht with ⟨c0, rfl, halpha, h2, _⟩
  subst he
  simp only [List.cons_append, matchTail, if_pos] at h
  rw [takeWhile_append_all halpha] at h
  split at h
  case isTrue => cases h
  case isFalse hn =>
    apply hn
    rw [List.length_take, List.length_append]
    omega

theorem matchDom_sound : ∀ {s d : Str}, matchDom s = some d →
    (∃ r, s = d ++ r) ∧ IsDomMatch d := by
  intro s
  induction s with
  | nil => intro d h; simp [matchDom] at h
  | cons c cs ih =>
      intro d h
      simp only [matchDom] at h
      split at h
      case isFalse => cases h
      case isTrue hloc =>
        cases hdc : matchDom cs with
        | some d0 =>
            rw [hdc] at h
            injection h with h
            subst h
            obtain ⟨⟨r, hr⟩, p0, c0, hdec, hpne, hploc, hcal, hl2, hl6⟩ := ih hdc
            constructor
            · exact ⟨r, by rw [hr]; rfl⟩
            · refine ⟨c :: p0, c0, by rw [hdec]; rfl, by simp, ?_, hcal, hl2, hl6⟩
              intro x hx
              rcases List.mem_cons.mp hx with rfl | hx
              · exact hloc
              · exact hploc x hx
        | none =>
            rw [hdc] at h
            cases hmt : matchTail cs with
            | some t =>
                rw [hmt] at h
                injection h with h
                subst h
                obtain ⟨⟨r, hr⟩, c0, hdec, hcal, hl2, hl6⟩ := matchTail_sound hmt
                constructor
                · exact ⟨r, by rw [hr]; rfl⟩
                · refine ⟨[c], c0, by rw [hdec]; rfl, by simp, ?_, hcal, hl2, hl6⟩
                  intro x hx
                  rcases List.mem_cons.mp hx with rfl | hx
                  · exact hloc
                  · simp at hx
            | none =>
                rw [hmt] at h
                cases h

theorem matchDom_none : ∀ (s : Str), matchDom s = none → ∀ (d r : Str),
    s = d ++ r → IsDomMatch d → False := by
  intro s
  induction s with
  | nil =>
      intro _ d r he hd
      rcases hd with ⟨p, c0, rfl, hpne, _, _, _, _⟩
      rcases p with _ | ⟨p0, ptl⟩
      · exact hpne rfl
      · simp at he
  | cons x cs ih =>
      intro h d r he hd
      rcases hd with ⟨p, c0, rfl, hpne, hploc, hcal, h2, h6⟩
      rcases p with _ | ⟨p0, ptl⟩
      · exact hpne rfl
      · have he2 : x :: cs = p0 :: (ptl ++ '.' :: c0 ++ r) := by simpa using he
        injection he2 with hx hcs
        subst hx
        have hx : localChar x = true := hploc x (List.mem_cons_self _ _)
        simp only [matchDom] at h
        rw [if_pos hx] at h
        cases hdc : matchDom cs with
        | some d0 => rw [hdc] at h; cases h
        | none =>
            rw [hdc] at h
            cases hmt : matchTail cs with
            | some t => rw [hmt] at h; cases h
            | none =>
                cases ptl with
                | nil =>
                    exact matchTail_none hmt (by simpa using hcs)
                      ⟨c0, rfl, hcal, h2, h6⟩
                | cons q qtl =>
                    refine ih hdc ((q :: qtl) ++ '.' :: c0) r (by simpa using hcs) ?_
                    exact ⟨q :: qtl, c0, rfl, by simp,
                      fun y hy => hploc y (List.mem_cons_of_mem _ hy), hcal, h2, h6⟩

theorem matchAt_sound {s m : Str} (h : matchAt s = some m) :
    (∃ r, s = m ++ r) ∧ IsEmailMatch m := by
  simp only [matchAt] at h
  split at h
  case isTrue => cases h
  case isFalse hne =>
    split at h
    case isFalse => cases h
    case isTrue hat =>
      cases hdw : s.dropWhile localChar with
      | nil => rw [hdw] at hat; cases hat
      | cons c rest =>
          rw [hdw] at hat h
          have hc : c = '@' := by
            simpa using hat
          subst hc
          cases hdm : matchDom rest with
          | none => rw [List.tail_cons, hdm] at h; cases h
          | some d0 =>
              rw [List.tail_cons, hdm] at h
              injection h with h
              subst h
              obtain ⟨⟨r, hr⟩, hdom⟩ := matchDom_sound hdm
              constructor
              · refine ⟨r, ?_⟩
                conv_lhs => rw [← List.takeWhile_append_dropWhile localChar s]
                rw [hdw, hr]
                simp
              · refine ⟨s.takeWhile localChar, d0, rfl, ?_, ?_, hdom⟩
                · intro hnil
                  rw [hnil] at hne
                  exact hne rfl
                · intro x hxm
                  exact List.mem_takeWhile_imp hxm

theorem matchAt_none {s : Str} (h : matchAt s = none) (m r : Str) (he : s = m ++ r)
    (hm : IsEmailMatch m) : False := by
  rcases hm with ⟨a, d, rfl, hane, haloc, hdom⟩
  have hat : localChar '@' = false := by decide
  have hs : s = a ++ '@' :: (d ++ r) := by rw [he]; simp
  have htw : s.takeWhile localChar = a := by
    rw [hs]; exact takeWhile_append_stop haloc hat
  have hdw : s.dropWhile localChar = '@' :: (d ++ r) := by
    rw [hs]; exact dropWhile_append_stop haloc hat
  simp only [matchAt, htw, hdw] at h
  split at h
  case isTrue hemp => exact hane (List.isEmpty_iff.mp hemp)
  case isFalse =>
    rw [if_pos (by simp)] at h
    rw [List.tail_cons] at h
    cases hdm : matchDom (d ++ r) with
    | some d0 => rw [hdm] at h; cases h
    | none => exact matchDom_none _ hdm d r rfl hdom

theorem searchEmail_sound : ∀ (s m : Str), searchEmail s = some m →
    ∃ i, MatchesAt s i m ∧ ∀ j, j < i → ∀ m2, ¬ MatchesAt s j m2 := by
  intro s
  induction s with
  | nil => intro m h; simp [searchEmail] at h
  | cons c cs ih =>
      intro m h
      simp only [searchEmail] at h
      cases hma : matchAt (c :: cs) with
      | some m0 =>
          rw [hma] at h
          injection h with h
          subst h
          obtain ⟨⟨r, hr⟩, hm⟩ := matchAt_sound hma
          exact ⟨0, ⟨⟨r, by simpa using hr⟩, hm⟩,
            fun j hj => absurd hj (Nat.not_lt_zero j)⟩
      | none =>
          rw [hma] at h
          obtain ⟨i, hi, hmin⟩ := ih m h
          refine ⟨i + 1, ?_, ?_⟩
          · rcases hi with ⟨⟨t, ht⟩, hm⟩
            exact ⟨⟨t, by rw [List.drop_succ_cons]; exact ht⟩, hm⟩
          · intro j hj m2 hmj
            cases j with
            | zero =>
                rcases hmj with ⟨⟨t, ht⟩, hm2⟩
                exact matchAt_none hma m2 t (by simpa using ht) hm2
            | succ j0 =>
                rcases hmj with ⟨⟨t, ht⟩, hm2⟩
                rw [List.drop_succ_cons] at ht
                exact hmin j0 (Nat.lt_of_succ_lt_succ hj) m2 ⟨⟨t, ht⟩, hm2⟩

theorem searchEmail_none : ∀ (s : Str), searchEmail s = none →
    ∀ i m, ¬ MatchesAt s i m := by
  intro s
  induction s with
  | nil =>
      intro _ i m hm
      rcases hm with ⟨⟨t, ht⟩, a, d, rfl, _, _, _⟩
      simp at ht
  | cons c cs ih =>
      intro h i m hm
      simp only [searchEmail] at h
      cases hma : matchAt (c :: cs) with
      | some m0 => rw [hma] at h; cases h
      | none =>
          rw [hma] at h
          cases i with
          | zero =>
              rcases hm with ⟨⟨t, ht⟩, hm2⟩
              exact matchAt_none hma m t (by simpa using ht) hm2
          | succ i0 =>
              rcases hm with ⟨⟨t, ht⟩, hm2⟩
              rw [List.drop_succ_cons] at ht
              exact ih h i0 m ⟨⟨t, ht⟩, hm2⟩

theorem email_ne_na {m : Str} (hm : IsEmailMatch m) : m ≠ naStr := by
  rcases hm with ⟨a, d, rfl, _, _, _⟩
  intro h
  have hmem : '@' ∈ a ++ '@' :: d :=
    List.mem_append_right a (List.mem_cons_self _ _)
  rw [h] at hmem
  exact absurd hmem (by decide)

/-
Claim theorems.
-/

/-- Claim C1, counterexample: the affiliation "CRISPR Lab" contains the
    configured keyword "CRISPR" case-insensitively as a substring, yet the
    classifier marks the author academic (isNonAcademic is false), because the
    affiliation is lowercased while the keyword is kept uppercase. -/
theorem claim_C1_counterexample :
    "CRISPR".toList ∈ PHARMA_KEYWORDS ∧
    containsSubstr (lowerStr "CRISPR".toList) (lowerStr "CRISPR Lab".toList) = true ∧
    isNonAcademic "CRISPR Lab".toList = false := by
  decide

/-- Claim C1 as amended: classification marks an author non-academic exactly
    when the lowercased affiliation contains some keyword other than "CRISPR";
    for those 21 keywords, all lowercase, this is case-insensitive containment,
    while the uppercase keyword "CRISPR" can never match any affiliation. -/
theorem claim_C1_classifier (affil : Str) :
    isNonAcademic affil = true ↔
      ∃ k, k ∈ PHARMA_KEYWORDS ∧ k ≠ "CRISPR".toList ∧
        containsSubstr (lowerStr k) (lowerStr affil) = true := by
  constructor
  · intro h
    rcases List.any_eq_true.mp h with ⟨k, hk, hc⟩
    by_cases hne : k = "CRISPR".toList
    · subst hne
      rw [crispr_no_match affil] at hc
      cases hc
    · refine ⟨k, hk, hne, ?_⟩
      rw [kwLower k hk hne]
      exact hc
  · rintro ⟨k, hk, hne, hc⟩
    apply List.any_eq_true.mpr
    refine ⟨k, hk, ?_⟩
    rw [← kwLower k hk hne]
    exact hc

/-- Claim C4: extract_email returns "N/A" exactly when no substring of the
    input matches EMAIL_PATTERN; when some substring matches, the result is
    itself a match of the pattern occurring at the leftmost matching start
    position; and on "Pfizer Inc., contact: a.b@pfizer.com" the result is
    "a.b@pfizer.com". -/
theorem claim_C4_email_extraction :
    (∀ s : Str,
      ((∀ i m, ¬ MatchesAt s i m) ↔ extract_email s = naStr) ∧
      (∀ i m, MatchesAt s i m →
        ∃ i0, MatchesAt s i0 (extract_email s) ∧
          ∀ j, j < i0 → ∀ m2, ¬ MatchesAt s j m2)) ∧
    extract_email "Pfizer Inc., contact: a.b@pfizer.com".toList =
      "a.b@pfizer.com".toList := by
  constructor
  · intro s
    refine ⟨⟨?_, ?_⟩, ?_⟩
    · intro hno
      cases hs : searchEmail s with
      | none => simp [extract_email, hs]
      | some m =>
          obtain ⟨i, hi, _⟩ := searchEmail_sound s m hs
          exact absurd hi (hno i m)
    · intro hna i m hm
      cases hs : searchEmail s with
      | none => exact searchEmail_none s hs i m hm
      | some m0 =>
          obtain ⟨_, hi0, _⟩ := searchEmail_sound s m0 hs
          have hne : m0 ≠ naStr := email_ne_na hi0.2
          apply hne
          rw [← hna]
          simp [extract_email, hs]
    · intro i m hm
      cases hs : searchEmail s with
      | none => exact absurd hm (searchEmail_none s hs i m)
      | some m0 =>
          obtain ⟨i0, hi0, hmin⟩ := searchEmail_sound s m0 hs
          refine ⟨i0, ?_, hmin⟩
          have : extract_email s = m0 := by simp [extract_email, hs]
          rw [this]
          exact hi0
  · decide

/-- Claim C4, witness: on the Pfizer example the extracted email is a match of
    the pattern at the leftmost matching position. -/
theorem claim_C4_email_extraction_witness :
    ∃ i0, MatchesAt "Pfizer Inc., contact: a.b@pfizer.com".toList i0
        (extract_email "Pfizer Inc., contact: a.b@pfizer.com".toList) ∧
      ∀ j, j < i0 → ∀ m2,
        ¬ MatchesAt "Pfizer Inc., contact: a.b@pfizer.com".toList j m2 :=
  (claim_C4_email_extraction.1 "Pfizer Inc., contact: a.b@pfizer.com".toList).2
    22 "a.b@pfizer.com".toList
    ⟨⟨[], by decide⟩,
     "a.b".toList, "pfizer.com".toList, by decide, by decide, by decide,
     "pfizer".toList, "com".toList, by decide, by decide, by decide, by decide,
     by decide, by decide⟩

/-
The classifier loop and the per-article pipeline.
-/

theorem filter_company_eq (authors : List Author) :
    filter_company_authors authors =
      ((authors.filter fun a => isNonAcademic a.affiliation).map Author.name,
       (authors.filter fun a => isNonAcademic a.affiliation).map Author.affiliation) := by
  induction authors with
  | nil => rfl
  | cons a rest ih =>
      simp only [filter_company_authors, List.filter_cons, ih]
      by_cases h : isNonAcademic a.affiliation
      · simp [h]
      · simp [h]

theorem processArticle_none_iff (art : RawArticle) :
    processArticle art = none ↔
      ∀ a ∈ (extract_authors_and_affiliations art).1,
        isNonAcademic a.affiliation = false := by
  simp only [processArticle]
  split
  case isTrue hemp =>
    constructor
    · intro _ a ha
      rw [filter_company_eq] at hemp
      have hfil : (extract_authors_and_affiliations art).1.filter
          (fun a => isNonAcademic a.affiliation) = [] := by
        have := List.isEmpty_iff.mp hemp
        simpa using this
      rcases hb : isNonAcademic a.affiliation with _ | _
      · rfl
      · exfalso
        have hmem : a ∈ (extract_authors_and_affiliations art).1.filter
            (fun a => isNonAcademic a.affiliation) := List.mem_filter.mpr ⟨ha, hb⟩
        rw [hfil] at hmem
        simp at hmem
    · intro _
      rfl
  case isFalse hemp =>
    constructor
    · intro h
      cases h
    · intro hall
      exfalso
      apply hemp
      rw [filter_company_eq]
      have hfil : (extract_authors_and_affiliations art).1.filter
          (fun a => isNonAcademic a.affiliation) = [] :=
        List.filter_eq_nil_iff.mpr (fun a ha => by rw [hall a ha]; simp)
      simp [hfil]

/-- Claim C2: an article contributes a row to the output exactly when at least
    one of its parsed authors is classified non-academic; an article with no
    non-academic author maps to none (dropped, no error), and every output row
    comes from a member article with a non-academic author. -/
theorem claim_C2_output_iff (arts : List RawArticle) :
    (∀ art, art ∈ arts →
      ((∃ a, a ∈ (extract_authors_and_affiliations art).1 ∧
          isNonAcademic a.affiliation = true) →
        ∃ p, processArticle art = some p ∧ p ∈ fetch_paper_details_pure arts) ∧
      ((∀ a ∈ (extract_authors_and_affiliations art).1,
          isNonAcademic a.affiliation = false) →
        processArticle art = none)) ∧
    (∀ p, p ∈ fetch_paper_details_pure arts →
      ∃ art, art ∈ arts ∧ processArticle art = some p ∧
        ∃ a, a ∈ (extract_authors_and_affiliations art).1 ∧
          isNonAcademic a.affiliation = true) := by
  constructor
  · intro art hart
    constructor
    · rintro ⟨a, ha, hna⟩
      cases hp : processArticle art with
      | none =>
          have := (processArticle_none_iff art).mp hp a ha
          rw [hna] at this
          cases this
      | some p =>
          exact ⟨p, rfl, List.mem_filterMap.mpr ⟨art, hart, hp⟩⟩
    · intro hall
      exact (processArticle_none_iff art).mpr hall
  · intro p hp
    rcases List.mem_filterMap.mp hp with ⟨art, hart, hsome⟩
    refine ⟨art, hart, hsome, ?_⟩
    by_contra hno
    push_neg at hno
    have hnone : processArticle art = none :=
      (processArticle_none_iff art).mpr (fun a ha => by
        rcases hb : isNonAcademic a.affiliation with _ | _
        · rfl
        · exact absurd hb (hno a ha))
    rw [hnone] at hsome
    cases hsome

/-- Claim C2, witness: in the concrete two-article batch, the article with the
    biotech-affiliated author yields a row that is in the output. -/
theorem claim_C2_witness :
    ∃ p, processArticle wArticle = some p ∧
      p ∈ fetch_paper_details_pure wArticles :=
  ((claim_C2_output_iff wArticles).1 wArticle (by decide)).1 (by decide)

theorem find_corresponding_eq (authors : List Author) :
    find_corresponding_email authors = firstNonNA authors := by
  induction authors with
  | nil => rfl
  | cons a rest ih =>
      simp only [firstNonNA, List.map_cons]
      by_cases h : a.email = naStr
      · rw [List.find?_cons_of_neg _ (by simp [h])]
        simp only [find_corresponding_email]
        rw [if_neg (fun hne => hne h)]
        exact ih
      · rw [List.find?_cons_of_pos _ (by simp [h])]
        simp only [Option.getD_some, find_corresponding_email]
        rw [if_pos h]

/-- Claim C3: the corresponding email equals the first non-"N/A" email over all
    of the article's authors in document order ("N/A" when there is none), and
    the email stored in an output row is computed from the full author list, not
    only the non-academic authors. -/
theorem claim_C3_corresponding_email :
    (∀ authors : List Author,
      find_corresponding_email authors = firstNonNA authors ∧
      ((∀ a ∈ authors, a.email = naStr) →
        find_corresponding_email authors = naStr)) ∧
    (∀ art p, processArticle art = some p →
      p.correspondingEmail =
        find_corresponding_email (extract_authors_and_affiliations art).1) := by
  constructor
  · intro authors
    refine ⟨find_corresponding_eq authors, ?_⟩
    intro hall
    rw [find_corresponding_eq authors]
    have hnone : (authors.map Author.email).find? (fun e => e != naStr) = none := by
      apply List.find?_eq_none.mpr
      intro x hx
      rcases List.mem_map.mp hx with ⟨a, ha, rfl⟩
      simp [hall a ha]
    simp [firstNonNA, hnone]
  · intro art p h
    simp only [processArticle] at h
    split at h
    · cases h
    · injection h with h
      rw [← h]

/-- Claim C3, witness: on a concrete author list whose emails are all "N/A",
    the corresponding email is "N/A". -/
theorem claim_C3_witness : find_corresponding_email wAuthorsNA = naStr :=
  (claim_C3_corresponding_email.1 wAuthorsNA).2 (by decide)

/-- Claim C5: a missing ArticleTitle yields title "Unknown Title" in the output
    row, a missing PubDate yields "Unknown Date", an author missing LastName or
    ForeName gets name "Unknown Author", a missing Affiliation becomes
    "No Affiliation", and processing is total: every article yields a defined
    outcome (a row or a silent drop), never an abort. -/
theorem claim_C5_missing_field_defaults :
    (∀ art p, art.articleTitle = none → processArticle art = some p →
      p.title = "Unknown Title".toList) ∧
    (∀ art p, art.pubDate = none → processArticle art = some p →
      p.pubDate = "Unknown Date".toList) ∧
    (∀ ra : RawAuthor, ra.lastName = none ∨ ra.foreName = none →
      (build_author ra).name = "Unknown Author".toList) ∧
    (∀ ra : RawAuthor, ra.affiliation = none →
      (build_author ra).affiliation = "No Affiliation".toList) ∧
    (∀ art, processArticle art = none ∨ ∃ p, processArticle art = some p) := by
  refine ⟨?_, ?_, ?_, ?_, ?_⟩
  · intro art p ht h
    simp only [processArticle, ht, Option.getD_none] at h
    split at h
    · cases h
    · injection h with h
      rw [← h]
  · intro art p ht h
    simp only [processArticle, ht, Option.getD_none] at h
    split at h
    · cases h
    · injection h with h
      rw [← h]
  · intro ra hra
    rcases hra with h | h
    · rcases hf : ra.foreName with _ | f <;> simp [build_author, h, hf]
    · rcases hl : ra.lastName with _ | l <;> simp [build_author, h, hl]
  · intro ra h
    simp [build_author, h]
  · intro art
    cases hp : processArticle art with
    | none => exact Or.inl rfl
    | some p => exact Or.inr ⟨p, rfl⟩

/-- Claim C5, witness: the concrete article with missing title, date and author
    names produces a row whose title is the "Unknown Title" placeholder. -/
theorem claim_C5_witness : wPaperOut.title = "Unknown Title".toList :=
  claim_C5_missing_field_defaults.1 wArticle wPaperOut rfl (by decide)

/-- Claim C9: filter_company_authors returns two lists of equal length; they
    are the names and the affiliations of the non-academic authors, filtered in
    input order; the i-th entries of the two lists belong to one and the same
    input author; and every listed affiliation matches some keyword after
    lowercasing the affiliation. -/
theorem claim_C9_filter_alignment (authors : List Author) :
    (filter_company_authors authors).1.length =
      (filter_company_authors authors).2.length ∧
    (filter_company_authors authors).1 =
      (authors.filter fun a => isNonAcademic a.affiliation).map Author.name ∧
    (filter_company_authors authors).2 =
      (authors.filter fun a => isNonAcademic a.affiliation).map Author.affiliation ∧
    (∀ i, ∀ h1 : i < (filter_company_authors authors).1.length,
      ∀ h2 : i < (filter_company_authors authors).2.length,
      ∃ a, a ∈ authors ∧ (filter_company_authors authors).1[i] = a.name ∧
        (filter_company_authors authors).2[i] = a.affiliation) ∧
    (∀ af ∈ (filter_company_authors authors).2, isNonAcademic af = true) := by
  have hfc := filter_company_eq authors
  have h1 : (filter_company_authors authors).1 =
      (authors.filter fun a => isNonAcademic a.affiliation).map Author.name := by
    rw [hfc]
  have h2 : (filter_company_authors authors).2 =
      (authors.filter fun a => isNonAcademic a.affiliation).map Author.affiliation := by
    rw [hfc]
  refine ⟨by rw [h1, h2]; simp, h1, h2, ?_, ?_⟩
  · intro i hi1 hi2
    have hlen : i < (authors.filter fun a => isNonAcademic a.affiliation).length := by
      rw [h1] at hi1
      simpa using hi1
    refine ⟨(authors.filter fun a => isNonAcademic a.affiliation)[i],
      List.mem_of_mem_filter (List.getElem_mem hlen), ?_, ?_⟩
    · rw [List.getElem_of_eq h1 hi1, List.getElem_map]
    · rw [List.getElem_of_eq h2 hi2, List.getElem_map]
  · intro af haf
    rw [h2] at haf
    rcases List.mem_map.mp haf with ⟨a, hmem, rfl⟩
    exact (List.mem_filter.mp hmem).2

/-- Claim C9, witness: on a concrete author list, the aligned entry at index 0
    is the name and affiliation of the single matching input author. -/
theorem claim_C9_witness :
    ∃ a, a ∈ wAuthors ∧ (filter_company_authors wAuthors).1[0]? = some a.name ∧
      (filter_company_authors wAuthors).2[0]? = some a.affiliation := by
  obtain ⟨a, hmem, hn, ha⟩ :=
    (claim_C9_filter_alignment wAuthors).2.2.2.1 0 (by decide) (by decide)
  refine ⟨a, hmem, ?_, ?_⟩
  · rw [List.getElem?_eq_getElem (by decide), hn]
  · rw [List.getElem?_eq_getElem (by decide), ha]

/-- Claim C6: with a nonempty record list, exporting appends rows to an
    existing file leaving its header as is, creates a missing file with the
    header, and exporting twice to a pre-existing file appends the rows twice
    while the header stays the one already present (written exactly once). -/
theorem claim_C6_csv_append (papers : List Paper) (f : CsvFile) (hne : papers ≠ []) :
    save_to_csv papers (some f) =
      some { header := f.header, rows := f.rows ++ papers.map paperRow } ∧
    save_to_csv papers none =
      some { header := csvHeader, rows := papers.map paperRow } ∧
    save_to_csv papers (save_to_csv papers (some f)) =
      some { header := f.header,
             rows := (f.rows ++ papers.map paperRow) ++ papers.map paperRow } := by
  have hemp : papers.isEmpty = false := List.isEmpty_eq_false.mpr hne
  refine ⟨?_, ?_, ?_⟩ <;> simp [save_to_csv, hemp]

/-- Claim C6, witness: appending one concrete row to a concrete pre-existing
    file keeps the header and appends the row. -/
theorem claim_C6_witness :
    save_to_csv [wPaper] (some wCsv) =
      some { header := wCsv.header, rows := wCsv.rows ++ [wPaper].map paperRow } :=
  (claim_C6_csv_append [wPaper] wCsv (by simp)).1

/-- Claim C7: the detail fetch on an empty id list returns an empty result
    having issued no request; on a nonempty id list it issues exactly one
    request whose id parameter is the comma-joined id list. -/
theorem claim_C7_batching (net : Str → Nat × List RawArticle) :
    fetch_paper_details_net [] net = ([], Except.ok []) ∧
    ∀ ids : List Str, ids ≠ [] →
      (fetch_paper_details_net ids net).1 = [List.intercalate ",".toList ids] := by
  constructor
  · rfl
  · intro ids hne
    have hemp : ids.isEmpty = false := List.isEmpty_eq_false.mpr hne
    simp [fetch_paper_details_net, hemp]

/-- Claim C7, witness: a concrete two-id fetch issues the single comma-joined
    request. -/
theorem claim_C7_witness :
    (fetch_paper_details_net ["11".toList, "22".toList] wNetOk).1 =
      [List.intercalate ",".toList ["11".toList, "22".toList]] :=
  (claim_C7_batching wNetOk).2 ["11".toList, "22".toList] (by simp)

/-- Claim C8, counterexample: status 304 is not a success status (the success
    class is 2xx), yet raise_for_status does not raise on it and the search
    fetch returns normally, contradicting "every non-success status raises". -/
theorem claim_C8_counterexample :
    ¬ successStatus 304 ∧
    raise_for_status 304 = Except.ok () ∧
    fetch_paper_ids "q".toList wNetSearch304 = Except.ok ["123".toList] := by
  refine ⟨?_, rfl, rfl⟩
  intro h
  exact absurd h.2 (by decide)

/-- Claim C8 as amended: raise_for_status raises HTTPError exactly for the
    client-error and server-error statuses (400 to 599) and returns normally
    otherwise; an error from either fetch propagates through the pipeline with
    no handler and no retry (at most one request is ever issued per fetch), and
    on a non-error status each fetch returns its parsed payload normally. -/
theorem claim_C8_http_error :
    (∀ st, 400 ≤ st → st < 600 → raise_for_status st = Except.error ⟨st⟩) ∧
    (∀ st, ¬(400 ≤ st ∧ st < 600) → raise_for_status st = Except.ok ()) ∧
    (∀ (query : Str) (netS : Str → Nat × List Str)
        (netF : Str → Nat × List RawArticle) (st : Nat) (ids : List Str),
      netS query = (st, ids) →
      (400 ≤ st → st < 600 →
        fetch_paper_ids query netS = Except.error ⟨st⟩ ∧
        run_pipeline query netS netF = Except.error ⟨st⟩) ∧
      (¬(400 ≤ st ∧ st < 600) → fetch_paper_ids query netS = Except.ok ids)) ∧
    (∀ (ids : List Str) (netF : Str → Nat × List RawArticle) (st : Nat)
        (arts : List RawArticle),
      ids ≠ [] → netF (List.intercalate ",".toList ids) = (st, arts) →
      (400 ≤ st → st < 600 →
        (fetch_paper_details_net ids netF).2 = Except.error ⟨st⟩) ∧
      (¬(400 ≤ st ∧ st < 600) →
        (fetch_paper_details_net ids netF).2 =
          Except.ok (fetch_paper_details_pure arts))) ∧
    (∀ (ids : List Str) (netF : Str → Nat × List RawArticle),
      (fetch_paper_details_net ids netF).1.length ≤ 1) := by
  have herr : ∀ st : Nat, 400 ≤ st → st < 600 →
      raise_for_status st = Except.error ⟨st⟩ := by
    intro st h4 h6
    simp only [raise_for_status]
    rw [if_pos ⟨h4, h6⟩]
  have hok : ∀ st : Nat, ¬(400 ≤ st ∧ st < 600) →
      raise_for_status st = Except.ok () := by
    intro st h
    simp only [raise_for_status]
    rw [if_neg h]
  refine ⟨herr, hok, ?_, ?_, ?_⟩
  · intro query netS netF st ids hnet
    constructor
    · intro h4 h6
      have hfpi : fetch_paper_ids query netS = Except.error ⟨st⟩ := by
        simp [fetch_paper_ids, hnet, herr st h4 h6]
      exact ⟨hfpi, by simp [run_pipeline, hfpi]⟩
    · intro h
      simp [fetch_paper_ids, hnet, hok st h]
  · intro ids netF st arts hne hnet
    have hemp : ids.isEmpty = false := List.isEmpty_eq_false.mpr hne
    constructor
    · intro h4 h6
      simp only [fetch_paper_details_net, hemp]
      rw [hnet]
      simp [herr st h4 h6]
    · intro h
      simp only [fetch_paper_details_net, hemp]
      rw [hnet]
      simp [hok st h]
  · intro ids netF
    simp only [fetch_paper_details_net]
    split
    · simp
    · simp

/-- Claim C8, witness: a concrete 500 response on the search request makes the
    search raise and the whole pipeline abort with that error. -/
theorem claim_C8_witness :
    fetch_paper_ids "q".toList wNetSearch500 = Except.error ⟨500⟩ ∧
    run_pipeline "q".toList wNetSearch500 wNetOk = Except.error ⟨500⟩ :=
  (claim_C8_http_error.2.2.1 "q".toList wNetSearch500 wNetOk 500 [] rfl).1
    (by decide) (by decide)

/-- Claim C10: exporting an empty record list leaves the file state untouched:
    a missing output file is not created, and an existing one is unchanged. -/
theorem claim_C10_empty_export :
    (∀ file : Option CsvFile, save_to_csv [] file = file) ∧
    save_to_csv [] none = none ∧
    (∀ f : CsvFile, save_to_csv [] (some f) = some f) :=
  ⟨fun _ => rfl, rfl, fun _ => rfl⟩

end Pubmed
